import Mathlib

/-!
Verification of the alchemy-logging (alog) C++ core: a shallow embedding of
`src/cpp/src/logger.cpp` (log level model, filter registry, plain-text and
JSON formatters, per-thread indentation and metadata, scoped timer) together
with proofs about the embedded operations.

Machine integers: channel strings and specs are `String`; counters and
nanosecond counts are `Nat` (the C++ code uses `unsigned`/`long` values far
from their wrap-around points in every reachable configuration modelled
here). Thread ids (`std::thread::id`) are modelled as `Nat` tokens.
C++ exceptions are modelled with `Except`, carrying the registry state at
throw time so that partial mutation before a throw is observable.
-/

namespace Alog

/-- Severity levels, from `enum ELogLevels` in `logger.hpp`:
`off = 0, fatal, error, warning, info, trace, debug, debug1..debug4`. -/
inductive ELogLevels where
  | off | fatal | error | warning | info | trace | debug
  | debug1 | debug2 | debug3 | debug4
  deriving DecidableEq, Repr

/-- Numeric value of a level, as in the C++ `enum` (used by `>=` comparisons). -/
def ELogLevels.toNat : ELogLevels → Nat
  | .off => 0
  | .fatal => 1
  | .error => 2
  | .warning => 3
  | .info => 4
  | .trace => 5
  | .debug => 6
  | .debug1 => 7
  | .debug2 => 8
  | .debug3 => 9
  | .debug4 => 10

/-- Four-character level codes from `operator<<(std::ostream&, const ELogLevels&)`.
Every value of the enum is in range, so the fallback numeric branch of the C++
function is unreachable in this model. -/
def levelCode : ELogLevels → String
  | .off => "OFF "
  | .fatal => "FATL"
  | .error => "ERRR"
  | .warning => "WARN"
  | .info => "INFO"
  | .trace => "TRCE"
  | .debug => "DBUG"
  | .debug1 => "DBG1"
  | .debug2 => "DBG2"
  | .debug3 => "DBG3"
  | .debug4 => "DBG4"

/-- Lowercase full-length names from `LevelToHumanString`. -/
def LevelToHumanString : ELogLevels → String
  | .off => "off"
  | .fatal => "fatal"
  | .error => "error"
  | .warning => "warning"
  | .info => "info"
  | .trace => "trace"
  | .debug => "debug"
  | .debug1 => "debug1"
  | .debug2 => "debug2"
  | .debug3 => "debug3"
  | .debug4 => "debug4"

/-- The eleven recognized level spellings, in enum order. -/
def levelNames : List String :=
  ["off", "fatal", "error", "warning", "info", "trace", "debug",
   "debug1", "debug2", "debug3", "debug4"]

/-- `ParseLevel` from `logger.cpp`: the string-to-level if-chain, throwing
`Invalid Log Level Spec [...]` on anything unrecognized. -/
def ParseLevel (s : String) : Except String ELogLevels :=
  if s = "off" then .ok .off
  else if s = "fatal" then .ok .fatal
  else if s = "error" then .ok .error
  else if s = "warning" then .ok .warning
  else if s = "info" then .ok .info
  else if s = "trace" then .ok .trace
  else if s = "debug" then .ok .debug
  else if s = "debug1" then .ok .debug1
  else if s = "debug2" then .ok .debug2
  else if s = "debug3" then .ok .debug3
  else if s = "debug4" then .ok .debug4
  else .error ("Invalid Log Level Spec [" ++ s ++ "]")

set_option maxHeartbeats 1000000 in
theorem ParseLevel_isOk_iff_mem (s : String) :
    (∃ l, ParseLevel s = .ok l) ↔ s ∈ levelNames := by
  constructor
  · rintro ⟨l, h⟩
    unfold ParseLevel at h
    split_ifs at h with h1 h2 h3 h4 h5 h6 h7 h8 h9 h10 h11
    all_goals subst_vars
    all_goals decide
  · intro hs
    simp only [levelNames, List.mem_cons, List.not_mem_nil, or_false] at hs
    rcases hs with rfl|rfl|rfl|rfl|rfl|rfl|rfl|rfl|rfl|rfl|rfl <;> exact ⟨_, rfl⟩

theorem ParseLevel_isError_iff (s : String) :
    (∃ e, ParseLevel s = .error e) ↔ s ∉ levelNames := by
  rw [← ParseLevel_isOk_iff_mem]
  cases h : ParseLevel s <;> simp

-- String splitting -----------------------------------------------------------

/-- Loop body of the `split` helper from `logger.cpp` (repeated
`std::getline(ss, item, delim)`): `acc` holds the reversed characters of the
item read so far.  At a delimiter the current item is emitted; a further
`getline` is attempted only when characters remain, so a trailing delimiter
yields no trailing empty item. -/
def splitCharsAux (d : Char) (acc : List Char) : List Char → List (List Char)
  | [] => [acc.reverse]
  | c :: cs =>
    if c = d then
      acc.reverse :: (match cs with
        | [] => []
        | _ :: _ => splitCharsAux d [] cs)
    else splitCharsAux d (c :: acc) cs

/-- The `split` helper on character lists.  The first `getline` on an empty
stream fails immediately, so the empty string yields no items at all. -/
def splitChars (d : Char) : List Char → List (List Char)
  | [] => []
  | c :: cs => splitCharsAux d [] (c :: cs)

/-- String-level wrapper for `split(const std::string&, char)`. -/
def split (s : String) (d : Char) : List String :=
  (splitChars d s.data).map fun cs => String.mk cs

theorem split_empty (d : Char) : split "" d = [] := rfl

example : split "a,b" ',' = ["a", "b"] := by decide
example : split "a," ',' = ["a"] := by decide
example : split "," ',' = [""] := by decide
example : split "CH:debug" ':' = ["CH", "debug"] := by decide

-- Structured values and string-keyed maps -------------------------------------

/-- Structured values, modelling the external `nlohmann::json` type the core
reads and writes (treated as an opaque structured-value container; objects are
association lists whose construction keeps keys unique). -/
inductive JVal where
  | null
  | bool (b : Bool)
  | num (n : Int)
  | str (s : String)
  | arr (elems : List JVal)
  | obj (fields : List (String × JVal))
  deriving Repr, Inhabited

/-- A JSON object: string-keyed association list of structured values. -/
abbrev JObj := List (String × JVal)

/-- Map lookup: first matching key. -/
def alFind? (l : List (String × α)) (k : String) : Option α :=
  match l with
  | [] => none
  | (k2, v) :: rest => if k2 = k then some v else alFind? rest k

/-- Map store `m[k] = v`: replace the value of an existing key, else append. -/
def alSet (l : List (String × α)) (k : String) (v : α) : List (String × α) :=
  match l with
  | [] => [(k, v)]
  | (k2, v2) :: rest => if k2 = k then (k, v) :: rest else (k2, v2) :: alSet rest k v

/-- Map erase: remove the key entirely. -/
def alErase (l : List (String × α)) (k : String) : List (String × α) :=
  match l with
  | [] => []
  | (k2, v2) :: rest => if k2 = k then alErase rest k else (k2, v2) :: alErase rest k

theorem alFind?_alSet_self (l : List (String × α)) (k : String) (v : α) :
    alFind? (alSet l k v) k = some v := by
  induction l with
  | nil => simp [alSet, alFind?]
  | cons p rest ih =>
    obtain ⟨k2, v2⟩ := p
    by_cases h : k2 = k <;> simp [alSet, alFind?, h, ih]

theorem alFind?_alSet_ne (l : List (String × α)) (k k2 : String) (v : α)
    (h : k2 ≠ k) : alFind? (alSet l k v) k2 = alFind? l k2 := by
  induction l with
  | nil => simp [alSet, alFind?, Ne.symm h]
  | cons p rest ih =>
    obtain ⟨k3, v3⟩ := p
    by_cases h3 : k3 = k
    · subst h3
      simp [alSet, alFind?, Ne.symm h]
    · by_cases h4 : k3 = k2
      · subst h4
        simp [alSet, alFind?, h3]
      · simp [alSet, alFind?, h3, h4, ih]

theorem alFind?_alErase_self (l : List (String × α)) (k : String) :
    alFind? (alErase l k) k = none := by
  induction l with
  | nil => simp [alErase, alFind?]
  | cons p rest ih =>
    obtain ⟨k2, v2⟩ := p
    by_cases h : k2 = k <;> simp [alErase, alFind?, h, ih]

theorem alFind?_alErase_ne (l : List (String × α)) (k k2 : String) (h : k2 ≠ k) :
    alFind? (alErase l k) k2 = alFind? l k2 := by
  induction l with
  | nil => simp [alErase, alFind?]
  | cons p rest ih =>
    obtain ⟨k3, v3⟩ := p
    by_cases h3 : k3 = k
    · subst h3
      simp [alErase, alFind?, Ne.symm h, ih]
    · simp [alErase, alFind?, h3, ih]

-- JSON serialization ----------------------------------------------------------

/-- Escaping of one character inside a serialized JSON string (the escapes
relevant to the strings handled here). -/
def escapeJsonChar (c : Char) : String :=
  if c = '"' then "\\\""
  else if c = '\\' then "\\\\"
  else if c = '\n' then "\\n"
  else if c = '\t' then "\\t"
  else if c = '\r' then "\\r"
  else String.mk [c]

/-- Escaping of a serialized JSON string. -/
def escapeJson (s : String) : String :=
  String.join (s.data.map escapeJsonChar)

mutual

/-- Compact (non-pretty) serialization of a structured value, modelling
`nlohmann::json::dump()` / `operator<<` with default formatting. -/
def JVal.dump : JVal → String
  | .null => "null"
  | .bool b => if b then "true" else "false"
  | .num n => toString n
  | .str s => "\"" ++ escapeJson s ++ "\""
  | .arr elems => "[" ++ JVal.dumpElems elems ++ "]"
  | .obj fields => "\x7b" ++ JVal.dumpFields fields ++ "\x7d"

/-- Comma-separated serialization of array elements. -/
def JVal.dumpElems : List JVal → String
  | [] => ""
  | [v] => JVal.dump v
  | v :: rest => JVal.dump v ++ "," ++ JVal.dumpElems rest

/-- Comma-separated serialization of object fields. -/
def JVal.dumpFields : List (String × JVal) → String
  | [] => ""
  | [(k, v)] => "\"" ++ escapeJson k ++ "\":" ++ JVal.dump v
  | (k, v) :: rest =>
    "\"" ++ escapeJson k ++ "\":" ++ JVal.dump v ++ "," ++ JVal.dumpFields rest

end

-- Log entry ------------------------------------------------------------------

/-- Thread identity (`std::thread::id`), modelled as an opaque numeric token. -/
abbrev TThreadID := Nat

/-- `CLogEntry`: the full content of one log statement, captured at
construction time. -/
structure CLogEntry where
  channel : String
  level : ELogLevels
  message : String
  timestamp : String
  serviceName : String
  nIndent : Nat
  threadId : TThreadID
  mapData : JObj

-- Formatters -----------------------------------------------------------------

/-- `MAX_CHANNEL_LENGTH` from `logger.hpp`. -/
def MAX_CHANNEL_LENGTH : Nat := 5

/-- `INDENT_VALUE` from `logger.hpp`. -/
def INDENT_VALUE : String := "  "

/-- `std::string::resize(n, c)`: truncate to `n` characters when longer,
append fill characters when shorter. -/
def resizeString (s : String) (n : Nat) (c : Char) : String :=
  if n ≤ s.length then String.mk (s.data.take n)
  else s ++ String.mk (List.replicate (n - s.length) c)

/-- `CStdLogFormatter::getHeader`, written as the same sequence of
stream-insertion steps. -/
def getHeader (threadIDEnabled : Bool) (e : CLogEntry) : String :=
  let ss := "" ++ e.timestamp
  let ss := if e.serviceName.isEmpty then ss else ss ++ " <" ++ e.serviceName ++ ">"
  let ch := resizeString e.channel MAX_CHANNEL_LENGTH ' '
  let ss := ss ++ " [" ++ ch ++ ":" ++ levelCode e.level
  let ss := if threadIDEnabled then ss ++ ":" ++ toString e.threadId else ss
  let ss := ss ++ "] "
  (List.range e.nIndent).foldl (fun acc _ => acc ++ INDENT_VALUE) ss

/-- `addPrettyPrintMap`: one line per key, prefixed by the header and the
current indent; nested objects recurse with one extra indent level and no
per-entry trailing newline. -/
def addPrettyPrintMap (fmt : String) (indent : Nat) (addNewlines : Bool) :
    List (String × JVal) → List String
  | [] => []
  | (k, v) :: rest =>
    let pre := fmt ++ String.join (List.replicate indent INDENT_VALUE) ++ k ++ ": "
    let body :=
      match v with
      | .obj fs => "\n" ++ String.intercalate "\n" (addPrettyPrintMap fmt (indent + 1) false fs)
      | other => other.dump
    (pre ++ body ++ (if addNewlines then "\n" else "")) ::
      addPrettyPrintMap fmt indent addNewlines rest

/-- `CStdLogFormatter::formatEntry`: split the message on newlines, prefix each
line with the header, then append pretty-printed map-data lines when the
structured map is non-empty. -/
def stdFormatEntry (threadIDEnabled : Bool) (e : CLogEntry) : List String :=
  let splitVec := split e.message '\n'
  let format := getHeader threadIDEnabled e
  let out := splitVec.map fun line => format ++ line ++ "\n"
  if e.mapData.isEmpty then out
  else out ++ addPrettyPrintMap format 0 true e.mapData

/-- The JSON object built by `CJSONLogFormatter::formatEntry`: the entry's map
plus the reserved keys, in the source's assignment order. -/
def jsonEntryObj (threadIDEnabled : Bool) (e : CLogEntry) : JObj :=
  let j := e.mapData
  let j := alSet j "channel" (.str e.channel)
  let j := alSet j "level_str" (.str (LevelToHumanString e.level))
  let j := alSet j "timestamp" (.str e.timestamp)
  let j := alSet j "num_indent" (.num (Int.ofNat e.nIndent))
  let j := if e.message.isEmpty then j else alSet j "message" (.str e.message)
  let j := if threadIDEnabled then alSet j "thread_id" (.str (toString e.threadId)) else j
  if e.serviceName.isEmpty then j else alSet j "service_name" (.str e.serviceName)

/-- `CJSONLogFormatter::formatEntry`: one compact newline-terminated line. -/
def jsonFormatEntry (threadIDEnabled : Bool) (e : CLogEntry) : List String :=
  [(JVal.obj (jsonEntryObj threadIDEnabled e)).dump ++ "\n"]

/-- The closed set of formatter implementations (`CStdLogFormatter`,
`CJSONLogFormatter`). -/
inductive Formatter where
  | std
  | json
  deriving DecidableEq, Repr

/-- Polymorphic `formatEntry` dispatch. -/
def formatEntry : Formatter → Bool → CLogEntry → List String
  | .std => stdFormatEntry
  | .json => jsonFormatEntry

-- Registry state --------------------------------------------------------------

/-- Per-thread indent counters (`ThreadIndentMap`), as a finite partial map. -/
abbrev ThreadIndentMap := TThreadID → Option Nat

/-- Per-thread metadata (`ThreadMetadataMap`), as a finite partial map. -/
abbrev ThreadMetadataMap := TThreadID → Option JObj

/-- The mutable state of `CLogChannelRegistrySingleton`.  Sinks are modelled by
the text each has received so far. -/
structure RegistryState where
  m_filters : List (String × ELogLevels)
  m_defaultLevel : ELogLevels
  m_doThreadLog : Bool
  m_doMetadata : Bool
  m_serviceName : String
  m_sinks : List String
  m_formatter : Option Formatter
  m_indents : ThreadIndentMap
  m_metadata : ThreadMetadataMap

/-- The state right after `instance()` first constructs the singleton (the
private constructor's defaults plus the installed plain-text formatter). -/
def initialRegistry : RegistryState :=
  { m_filters := []
    m_defaultLevel := .off
    m_doThreadLog := false
    m_doMetadata := false
    m_serviceName := ""
    m_sinks := []
    m_formatter := some .std
    m_indents := fun _ => none
    m_metadata := fun _ => none }

-- Registry operations ---------------------------------------------------------

/-- The level that effectively governs a channel: the mapped level when the
channel is present in the filter map, the process default otherwise. -/
def effectiveLevel (st : RegistryState) (ch : String) : ELogLevels :=
  (alFind? st.m_filters ch).getD st.m_defaultLevel

/-- `CLogChannelRegistrySingleton::filter`: throws on level `off`, otherwise
compares the effective level against the requested level numerically. -/
def filter (st : RegistryState) (ch : String) (lvl : ELogLevels) : Except String Bool :=
  if lvl = .off then .error "Logging to \x27off\x27 is not allowed"
  else .ok (decide (lvl.toNat ≤ (effectiveLevel st ch).toNat))

/-- One pair of `parseFilterSpec`'s loop: split on `:`, demand exactly two
tokens, parse the level, store under the channel key. -/
def parseFilterPair (spec : String) (out : List (String × ELogLevels))
    (specPair : String) : Except String (List (String × ELogLevels)) :=
  match split specPair ':' with
  | [k, v] => do
    let lvl ← ParseLevel v
    pure (alSet out k lvl)
  | _ => .error ("Invalid Log Spec [" ++ spec ++ "]")

/-- `parseFilterSpec`: empty spec short-circuits to the empty map, otherwise
split on `,` and fold the pairs into a map. -/
def parseFilterSpec (spec : String) : Except String (List (String × ELogLevels)) :=
  if spec = "" then .ok []
  else (split spec ',').foldlM (parseFilterPair spec) []

/-- `CLogChannelRegistrySingleton::setupFilters`.  The two parses happen in
source order: the filter map is assigned before the default level is parsed,
and a thrown error carries the state as of the throw. -/
def setupFilters (st : RegistryState) (filterSpec defaultLevelSpec : String) :
    Except (String × RegistryState) RegistryState :=
  match parseFilterSpec filterSpec with
  | .error e => .error (e, st)
  | .ok fm =>
    let st1 := { st with m_filters := fm }
    match ParseLevel defaultLevelSpec with
    | .error e => .error (e, st1)
    | .ok lvl => .ok { st1 with m_defaultLevel := lvl }

/-- `getIndent`: 0 for a thread with no entry. -/
def getIndent (m : ThreadIndentMap) (tid : TThreadID) : Nat :=
  (m tid).getD 0

/-- `addIndent`: insert 1 for an absent thread, else increment. -/
def addIndent (m : ThreadIndentMap) (tid : TThreadID) : ThreadIndentMap :=
  fun t =>
    if t = tid then
      match m tid with
      | none => some 1
      | some k => some (k + 1)
    else m t

/-- `removeIndent`: decrement when positive, then erase the entry when it has
reached zero. -/
def removeIndent (m : ThreadIndentMap) (tid : TThreadID) : ThreadIndentMap :=
  fun t =>
    if t = tid then
      match m tid with
      | none => none
      | some k => if k - 1 = 0 then none else some (k - 1)
    else m t

/-- `addMetadata`: a no-op when the metadata flag is disabled; otherwise store
the key/value in the calling thread's map, creating it if absent. -/
def addMetadata (doMetadata : Bool) (m : ThreadMetadataMap) (tid : TThreadID)
    (k : String) (v : JVal) : ThreadMetadataMap :=
  if doMetadata then
    fun t =>
      if t = tid then
        some (match m tid with
          | none => alSet [] k v
          | some o => alSet o k v)
      else m t
  else m

/-- `removeMetadata`: a no-op when the metadata flag is disabled or the key is
absent; otherwise erase the key, and erase the whole thread entry when its map
becomes empty. -/
def removeMetadata (doMetadata : Bool) (m : ThreadMetadataMap) (tid : TThreadID)
    (k : String) : ThreadMetadataMap :=
  if doMetadata then
    match m tid with
    | none => m
    | some o =>
      if (alFind? o k).isSome then
        let o2 := alErase o k
        fun t => if t = tid then (if o2.isEmpty then none else some o2) else m t
      else m
  else m

/-- The metadata injection done at the top of `log`: when enabled and the
calling thread has metadata, the outgoing map gains a `metadata` key. -/
def injectMetadata (st : RegistryState) (tid : TThreadID) (mapData : JObj) : JObj :=
  if st.m_doMetadata then
    match st.m_metadata tid with
    | some md => alSet mapData "metadata" (.obj md)
    | none => mapData
  else mapData

/-- `CLogEntry`'s constructor: captures channel, level, message, timestamp,
service name, the calling thread's indent depth, the thread id and the map. -/
def CLogEntry.make (st : RegistryState) (tid : TThreadID) (ts : String)
    (ch : String) (lvl : ELogLevels) (msg : String) (mapData : JObj) : CLogEntry :=
  { channel := ch
    level := lvl
    message := msg
    timestamp := ts
    serviceName := st.m_serviceName
    nIndent := getIndent st.m_indents tid
    threadId := tid
    mapData := mapData }

/-- `CLogChannelRegistrySingleton::log`: no-op without a formatter; otherwise
inject metadata, build the entry, format it, and write every resulting line to
every sink in order.  `tid` and `ts` supply the ambient thread identity and
timestamp. -/
def log (st : RegistryState) (ch : String) (lvl : ELogLevels) (msg : String)
    (mapData : JObj) (tid : TThreadID) (ts : String) : RegistryState :=
  match st.m_formatter with
  | none => st
  | some fmt =>
    let mapData := injectMetadata st tid mapData
    let entry := CLogEntry.make st tid ts ch lvl msg mapData
    let lines := formatEntry fmt st.m_doThreadLog entry
    { st with m_sinks := st.m_sinks.map fun out => out ++ String.join lines }

/-- `ALOG_LEVEL_IMPL`: check the filter, and only when it passes call `log`.
A throw from the filter check propagates before any entry is constructed. -/
def alogLevelImpl (st : RegistryState) (ch : String) (lvl : ELogLevels)
    (msg : String) (mapData : JObj) (tid : TThreadID) (ts : String) :
    Except (String × RegistryState) RegistryState :=
  match filter st ch lvl with
  | .error e => .error (e, st)
  | .ok true => .ok (log st ch lvl msg mapData tid ts)
  | .ok false => .ok st

/-- `CLogChannelRegistrySingleton::reset`: clear sinks, filters, indents and
the service name, set the default level to `off`, disable thread ids, and
reinstall the plain-text formatter.  (The metadata flag and the per-thread
metadata map are not touched by the source.) -/
def reset (st : RegistryState) : RegistryState :=
  { st with
    m_sinks := []
    m_filters := []
    m_defaultLevel := .off
    m_doThreadLog := false
    m_serviceName := ""
    m_indents := fun _ => none
    m_formatter := some .std }

-- Sample states for concrete evaluations --------------------------------------

/-- A registry configured like the spec's concrete scenario:
filters `TEST:debug,FOO:info`, default `off`. -/
def filtersExample : RegistryState :=
  { initialRegistry with
    m_filters := [("TEST", .debug), ("FOO", .info)]
    m_defaultLevel := .off }

/-- A registry with the metadata flag enabled. -/
def metadataOnRegistry : RegistryState :=
  { initialRegistry with m_doMetadata := true }

-- C1 ---------------------------------------------------------------------------

/-- C1: for every channel string and every level other than `off`, under any
configured filter map and default level, the filter check returns true iff the
effective level for the channel (the mapped level when present, otherwise the
default) is numerically at least the requested level; in particular an
exact-level match is enabled. -/
theorem filter_true_iff_effective_ge (st : RegistryState) (ch : String)
    (lvl : ELogLevels) (h : lvl ≠ .off) :
    (filter st ch lvl = .ok true ↔ lvl.toNat ≤ (effectiveLevel st ch).toNat)
    ∧ (lvl = effectiveLevel st ch → filter st ch lvl = .ok true) := by
  refine ⟨?_, ?_⟩
  · simp [filter, h]
  · intro he
    subst he
    simp [filter, h]

/-- Witness for C1: under filters `TEST:debug,FOO:info` with default `off`,
`(TEST, debug)` (an exact match) is enabled and `(TEST, debug4)` is not. -/
theorem filter_true_iff_effective_ge_witness :
    filter filtersExample "TEST" ELogLevels.debug = .ok true
    ∧ ¬ filter filtersExample "TEST" ELogLevels.debug4 = .ok true := by
  refine ⟨?_, ?_⟩
  · exact (filter_true_iff_effective_ge filtersExample "TEST" ELogLevels.debug
      (by decide)).2 (by decide)
  · intro hc
    exact absurd ((filter_true_iff_effective_ge filtersExample "TEST" ELogLevels.debug4
      (by decide)).1.mp hc) (by decide)

-- C2 ---------------------------------------------------------------------------

/-- C2: for every channel and every filter configuration, the filter check at
level `off` raises; the logging macro therefore propagates the error with the
registry state unchanged — no entry is constructed and no sink receives
output. -/
theorem filter_off_always_raises (st : RegistryState) (ch msg : String)
    (mapData : JObj) (tid : TThreadID) (ts : String) :
    filter st ch .off = .error "Logging to \x27off\x27 is not allowed"
    ∧ alogLevelImpl st ch .off msg mapData tid ts
        = .error ("Logging to \x27off\x27 is not allowed", st) := by
  refine ⟨rfl, ?_⟩
  simp [alogLevelImpl, filter]

-- C4 ---------------------------------------------------------------------------

/-- C4 counterexample: starting from a registry with the metadata flag
enabled, `reset` leaves it enabled — refuting the claim that after `reset`
the metadata flag is false. -/
theorem reset_keeps_metadata_flag :
    (reset metadataOnRegistry).m_doMetadata = true := rfl

/-- C4 (amended): after `reset` the filter map is empty, the default level is
`off`, the sink list is empty, the thread-ID flag is false, the service name
is empty, the per-thread indent map is empty and the formatter is the
plain-text default — while the metadata flag and the per-thread metadata map
are carried over unchanged. -/
theorem reset_restores_unconfigured (st : RegistryState) :
    (reset st).m_filters = []
    ∧ (reset st).m_defaultLevel = .off
    ∧ (reset st).m_sinks = []
    ∧ (reset st).m_doThreadLog = false
    ∧ (reset st).m_serviceName = ""
    ∧ (∀ t, (reset st).m_indents t = none)
    ∧ (reset st).m_formatter = some .std
    ∧ (reset st).m_doMetadata = st.m_doMetadata
    ∧ (reset st).m_metadata = st.m_metadata := by
  simp [reset]

-- C3 ---------------------------------------------------------------------------

/-- A comma-separated pair of a filter spec that makes the parse throw: it does
not split into exactly two `:`-separated tokens, or its level token is not one
of the eleven recognized names. -/
def badFilterPair (p : String) : Prop :=
  (split p ':').length ≠ 2 ∨ ∃ k v, split p ':' = [k, v] ∧ v ∉ levelNames

theorem parseFilterPair_eq_two (spec : String) (out : List (String × ELogLevels))
    (p k v : String) (hs : split p ':' = [k, v]) :
    parseFilterPair spec out p = (ParseLevel v).bind fun lvl => .ok (alSet out k lvl) := by
  unfold parseFilterPair
  rw [hs]
  rfl

theorem parseFilterPair_eq_err (spec : String) (out : List (String × ELogLevels))
    (p : String) (hlen : (split p ':').length ≠ 2) :
    parseFilterPair spec out p = .error ("Invalid Log Spec [" ++ spec ++ "]") := by
  unfold parseFilterPair
  rcases hs : split p ':' with _ | ⟨k, _ | ⟨v, _ | ⟨w, rest⟩⟩⟩ <;>
    first
      | rfl
      | (exact absurd (by rw [hs]; rfl) hlen)

theorem parseFilterPair_error_iff (spec : String) (out : List (String × ELogLevels))
    (p : String) : (∃ e, parseFilterPair spec out p = .error e) ↔ badFilterPair p := by
  unfold badFilterPair
  by_cases hlen : (split p ':').length = 2
  · rcases hs : split p ':' with _ | ⟨k, _ | ⟨v, _ | ⟨w, rest⟩⟩⟩ <;>
      rw [hs] at hlen <;> simp at hlen
    rw [parseFilterPair_eq_two spec out p k v hs]
    cases hp : ParseLevel v with
    | error e2 =>
      constructor
      · intro _
        exact Or.inr ⟨k, v, rfl, (ParseLevel_isError_iff v).mp ⟨e2, hp⟩⟩
      · intro _
        exact ⟨e2, rfl⟩
    | ok lvl =>
      have hv : v ∈ levelNames := (ParseLevel_isOk_iff_mem v).mp ⟨lvl, hp⟩
      constructor
      · rintro ⟨e, he⟩
        cases he
      · rintro (h2 | ⟨k2, v2, hkv, hv2⟩)
        · simp at h2
        · injection hkv with h3 h4
          injection h4 with h5
          exact absurd hv (h5 ▸ hv2)
  · rw [parseFilterPair_eq_err spec out p hlen]
    constructor
    · intro _
      exact Or.inl hlen
    · intro _
      exact ⟨_, rfl⟩

theorem foldlM_parseFilterPair_error_iff (spec : String) (l : List String) :
    ∀ out, (∃ e, l.foldlM (parseFilterPair spec) out = .error e)
      ↔ ∃ p ∈ l, badFilterPair p := by
  induction l with
  | nil =>
    intro out
    constructor
    · rintro ⟨e, he⟩
      cases he
    · rintro ⟨p, hp, _⟩
      cases hp
  | cons p rest ih =>
    intro out
    rw [List.foldlM_cons]
    cases hp : parseFilterPair spec out p with
    | error e =>
      constructor
      · intro _
        exact ⟨p, by simp, (parseFilterPair_error_iff spec out p).mp ⟨e, hp⟩⟩
      · intro _
        exact ⟨e, rfl⟩
    | ok out2 =>
      have hgood : ¬ badFilterPair p := by
        intro hb
        obtain ⟨e, he⟩ := (parseFilterPair_error_iff spec out p).mpr hb
        rw [hp] at he
        cases he
      have hstep : (∃ e, (Except.ok out2 >>= fun o =>
            rest.foldlM (parseFilterPair spec) o) = .error e)
          ↔ ∃ p2 ∈ rest, badFilterPair p2 := ih out2
      rw [hstep]
      simp [hgood]

theorem parseFilterSpec_error_iff (spec : String) :
    (∃ e, parseFilterSpec spec = .error e) ↔ ∃ p ∈ split spec ',', badFilterPair p := by
  unfold parseFilterSpec
  by_cases h : spec = ""
  · subst h
    simp [split_empty]
  · rw [if_neg h]
    exact foldlM_parseFilterPair_error_iff spec (split spec ',') []

/-- C3 (amended): `setupFilters` raises exactly when some comma-separated pair
of the filter spec does not split into exactly two `:`-separated tokens or
some level token (in the filter spec or the default-level spec) is not one of
the eleven recognized names.  When it raises, the default level is always left
unchanged, and the whole state is unchanged when the filter spec itself was
invalid; but when the filter spec parses and only the default-level spec is
invalid, the new filter map is already installed at the time of the throw —
the replacement of the prior configuration is not atomic. -/
theorem setupFilters_error_iff (st : RegistryState) (fs ds : String) :
    ((∃ e st2, setupFilters st fs ds = .error (e, st2)) ↔
      ((∃ p ∈ split fs ',', (split p ':').length ≠ 2
          ∨ ∃ k v, split p ':' = [k, v] ∧ v ∉ levelNames)
        ∨ ds ∉ levelNames))
    ∧ (∀ e st2, setupFilters st fs ds = .error (e, st2) →
        st2.m_defaultLevel = st.m_defaultLevel
        ∧ ((∃ e2, parseFilterSpec fs = .error e2) → st2 = st)
        ∧ (∀ fm, parseFilterSpec fs = .ok fm → st2 = { st with m_filters := fm })) := by
  have hbp : ∀ p, badFilterPair p ↔ ((split p ':').length ≠ 2
      ∨ ∃ k v, split p ':' = [k, v] ∧ v ∉ levelNames) := fun p => Iff.rfl
  unfold setupFilters
  cases hpf : parseFilterSpec fs with
  | error e =>
    refine ⟨?_, ?_⟩
    · constructor
      · intro _
        obtain ⟨p, hpmem, hpbad⟩ := (parseFilterSpec_error_iff fs).mp ⟨e, hpf⟩
        exact Or.inl ⟨p, hpmem, (hbp p).mp hpbad⟩
      · intro _
        exact ⟨e, st, rfl⟩
    · intro e2 st2 heq
      injection heq with heq2
      injection heq2 with _ hst
      subst hst
      exact ⟨rfl, fun _ => rfl, fun fm hfm => by cases hfm⟩
  | ok fm =>
    cases hpl : ParseLevel ds with
    | error e =>
      refine ⟨?_, ?_⟩
      · constructor
        · intro _
          exact Or.inr ((ParseLevel_isError_iff ds).mp ⟨e, hpl⟩)
        · intro _
          exact ⟨e, { st with m_filters := fm }, rfl⟩
      · intro e2 st2 heq
        injection heq with heq2
        injection heq2 with _ hst
        subst hst
        refine ⟨rfl, ?_, ?_⟩
        · rintro ⟨e3, he3⟩
          cases he3
        · intro fm2 hfm2
          injection hfm2 with hfm3
          rw [hfm3]
    | ok lvl =>
      refine ⟨?_, ?_⟩
      · constructor
        · rintro ⟨e2, st2, heq⟩
          cases heq
        · intro hr
          rcases hr with ⟨p, hpmem, hpbad⟩ | hds
          · obtain ⟨e2, he2⟩ := (parseFilterSpec_error_iff fs).mpr
              ⟨p, hpmem, (hbp p).mpr hpbad⟩
            rw [hpf] at he2
            cases he2
          · exact absurd ((ParseLevel_isOk_iff_mem ds).mp ⟨lvl, hpl⟩) hds
      · intro e2 st2 heq
        cases heq

/-- C3 counterexample: with the valid filter spec `CH:debug` and the invalid
default-level spec `bogus`, `setupFilters` raises, yet the state carried at
the throw already holds the new filter map, which differs from the pre-call
empty filter map — the replacement is not atomic. -/
theorem setupFilters_not_atomic :
    setupFilters initialRegistry "CH:debug" "bogus"
      = .error ("Invalid Log Level Spec [bogus]",
          { initialRegistry with m_filters := [("CH", ELogLevels.debug)] })
    ∧ initialRegistry.m_filters = []
    ∧ ([("CH", ELogLevels.debug)] : List (String × ELogLevels)) ≠ [] := by
  exact ⟨rfl, rfl, by simp⟩

-- C5 ---------------------------------------------------------------------------

theorem string_foldl_eq_append_join (l : List String) :
    ∀ a : String, l.foldl (fun r s => r ++ s) a = a ++ String.join l := by
  induction l with
  | nil =>
    intro a
    exact (String.append_empty a).symm
  | cons s l ih =>
    intro a
    show l.foldl (fun r s => r ++ s) (a ++ s) = a ++ String.join (s :: l)
    rw [ih (a ++ s)]
    have h2 : String.join (s :: l) = s ++ String.join l := by
      show l.foldl (fun r s => r ++ s) ("" ++ s) = s ++ String.join l
      rw [String.empty_append, ih s]
    rw [h2, String.append_assoc]

theorem join_concat (l : List String) (t : String) :
    String.join (l ++ [t]) = String.join l ++ t := by
  show (l ++ [t]).foldl (fun r s => r ++ s) "" = String.join l ++ t
  rw [List.foldl_append]
  rfl

theorem foldl_append_const (n : Nat) (s t : String) :
    (List.range n).foldl (fun acc _ => acc ++ t) s
      = s ++ String.join (List.replicate n t) := by
  induction n generalizing s with
  | zero => exact (String.append_empty s).symm
  | succ n ih =>
    rw [List.range_succ, List.foldl_append, ih]
    show (s ++ String.join (List.replicate n t)) ++ t
      = s ++ String.join (List.replicate (n + 1) t)
    rw [List.replicate_succ', join_concat, String.append_assoc]

/-- Left padding as the specification words it for C5: fill characters are
prepended when the channel is shorter than the display width (truncation when
longer, as in the source).  This follows the spec text, for comparison with
the source's `resize`, which appends the fill characters instead. -/
def leftPadString (s : String) (n : Nat) (c : Char) : String :=
  if n ≤ s.length then String.mk (s.data.take n)
  else String.mk (List.replicate (n - s.length) c) ++ s

/-- The C5 header exactly as the specification describes it, with the channel
left-padded to the fixed display width. -/
def specHeaderLeftPad (threadIDEnabled : Bool) (e : CLogEntry) : String :=
  e.timestamp
  ++ (if e.serviceName = "" then "" else " <" ++ e.serviceName ++ ">")
  ++ " [" ++ leftPadString e.channel MAX_CHANNEL_LENGTH ' '
  ++ ":" ++ levelCode e.level
  ++ (if threadIDEnabled then ":" ++ toString e.threadId else "")
  ++ "] "
  ++ String.join (List.replicate e.nIndent INDENT_VALUE)

/-- A concrete entry whose channel is shorter than the display width. -/
def headerEntry : CLogEntry :=
  { channel := "AB"
    level := .info
    message := "msg"
    timestamp := "2018-04-17T21:42:11.583Z"
    serviceName := ""
    nIndent := 0
    threadId := 0
    mapData := [] }

/-- C5 counterexample: the produced header pads the channel on the right
(`"AB   "`), not on the left as the claim's "left-padded" wording demands. -/
theorem getHeader_not_left_padded :
    getHeader false headerEntry ≠ specHeaderLeftPad false headerEntry
    ∧ getHeader false headerEntry = "2018-04-17T21:42:11.583Z [AB   :INFO] "
    ∧ specHeaderLeftPad false headerEntry = "2018-04-17T21:42:11.583Z [   AB:INFO] " := by
  refine ⟨by decide, by decide, by decide⟩

/-- C5 (amended): the plain-text header is the timestamp, then
`" <serviceName>"` only when the service name is non-empty, then `" ["`, the
channel right-padded (left-justified) or truncated to the fixed display width,
`":"`, the level's fixed 4-character code, optionally `":"` and the thread id
when the thread-ID flag is enabled, then `"] "` and indent-depth repetitions
of the indent unit. -/
theorem getHeader_structure (threadIDEnabled : Bool) (e : CLogEntry) :
    getHeader threadIDEnabled e
      = e.timestamp
        ++ (if e.serviceName = "" then "" else " <" ++ e.serviceName ++ ">")
        ++ " [" ++ resizeString e.channel MAX_CHANNEL_LENGTH ' '
        ++ ":" ++ levelCode e.level
        ++ (if threadIDEnabled then ":" ++ toString e.threadId else "")
        ++ "] "
        ++ String.join (List.replicate e.nIndent INDENT_VALUE)
    ∧ (∀ lvl, (levelCode lvl).length = 4)
    ∧ MAX_CHANNEL_LENGTH = 5 := by
  refine ⟨?_, ?_, rfl⟩
  · unfold getHeader
    rw [foldl_append_const]
    by_cases hs : e.serviceName = ""
    · have hs2 : e.serviceName.isEmpty = true := (String.isEmpty_iff e.serviceName).mpr hs
      cases threadIDEnabled <;>
        simp [hs, hs2, show ("" : String).isEmpty = true from rfl,
          String.empty_append, String.append_empty, String.append_assoc]
    · have hs2 : ¬ e.serviceName.isEmpty = true := by
        rw [String.isEmpty_iff]
        exact hs
      cases threadIDEnabled <;>
        simp [hs, hs2, String.empty_append, String.append_empty, String.append_assoc]
  · intro lvl
    cases lvl <;> rfl

-- C6 ---------------------------------------------------------------------------

/-- C6: the JSON formatter produces exactly one newline-terminated line whose
object is the entry's structured map plus the reserved keys `channel`,
`level_str` (lowercase full-length level name), `timestamp` and `num_indent`
(an integer); `message` is added only when the message is non-empty,
`thread_id` only when the thread-ID flag is enabled, `service_name` only when
the service name is non-empty; caller-supplied keys other than the reserved
ones are preserved, and a caller-supplied value under a reserved key is
overwritten by the reserved value. -/
theorem jsonFormat_structure (flag : Bool) (e : CLogEntry) :
    jsonFormatEntry flag e = [(JVal.obj (jsonEntryObj flag e)).dump ++ "\n"]
    ∧ alFind? (jsonEntryObj flag e) "channel" = some (.str e.channel)
    ∧ alFind? (jsonEntryObj flag e) "level_str"
        = some (.str (LevelToHumanString e.level))
    ∧ alFind? (jsonEntryObj flag e) "timestamp" = some (.str e.timestamp)
    ∧ alFind? (jsonEntryObj flag e) "num_indent" = some (.num (Int.ofNat e.nIndent))
    ∧ alFind? (jsonEntryObj flag e) "message"
        = (if e.message = "" then alFind? e.mapData "message"
           else some (.str e.message))
    ∧ alFind? (jsonEntryObj flag e) "thread_id"
        = (if flag = true then some (.str (toString e.threadId))
           else alFind? e.mapData "thread_id")
    ∧ alFind? (jsonEntryObj flag e) "service_name"
        = (if e.serviceName = "" then alFind? e.mapData "service_name"
           else some (.str e.serviceName))
    ∧ ∀ k, k ∉ (["channel", "level_str", "timestamp", "num_indent", "message",
          "thread_id", "service_name"] : List String) →
        alFind? (jsonEntryObj flag e) k = alFind? e.mapData k := by
  have hme := String.isEmpty_iff e.message
  have hse := String.isEmpty_iff e.serviceName
  refine ⟨rfl, ?_, ?_, ?_, ?_, ?_, ?_, ?_, ?_⟩
  all_goals
    by_cases hm : e.message = "" <;> by_cases hs : e.serviceName = "" <;>
      cases flag <;>
      simp_all [jsonEntryObj, alFind?_alSet_self, alFind?_alSet_ne]

-- C10 --------------------------------------------------------------------------

/-- C10: for an entry whose message is empty and whose structured map is
empty, the plain-text formatter returns no lines at all (splitting the empty
message yields no segments), so `log` writes nothing to any sink — the whole
registry state is unchanged. -/
theorem empty_entry_writes_nothing (flag : Bool) (e : CLogEntry)
    (st : RegistryState) (ch : String) (lvl : ELogLevels) (tid : TThreadID)
    (ts : String)
    (he : e.message = "") (hmap : e.mapData = [])
    (hfmt : st.m_formatter = some .std)
    (hinj : injectMetadata st tid [] = []) :
    stdFormatEntry flag e = [] ∧ log st ch lvl "" [] tid ts = st := by
  constructor
  · simp [stdFormatEntry, he, hmap, split_empty]
  · unfold log
    rw [hfmt]
    simp [hinj, CLogEntry.make, formatEntry, stdFormatEntry, split_empty,
      show String.join [] = "" from rfl, String.append_empty, List.map_id',
      ← hfmt]

-- C7 ---------------------------------------------------------------------------

/-- `n` nested `addIndent` calls by one thread. -/
def addIndentN : Nat → ThreadIndentMap → TThreadID → ThreadIndentMap
  | 0, m, _ => m
  | n + 1, m, tid => addIndent (addIndentN n m tid) tid

/-- `n` nested `removeIndent` calls by one thread. -/
def removeIndentN : Nat → ThreadIndentMap → TThreadID → ThreadIndentMap
  | 0, m, _ => m
  | n + 1, m, tid => removeIndentN n (removeIndent m tid) tid

theorem addIndent_preserves_inv (m : ThreadIndentMap) (tid : TThreadID)
    (h : ∀ t, m t ≠ some 0) : ∀ t, addIndent m tid t ≠ some 0 := by
  intro t
  unfold addIndent
  by_cases ht : t = tid
  · cases hm : m tid <;> simp [ht, hm]
  · simp [ht]
    exact h t

theorem removeIndent_preserves_inv (m : ThreadIndentMap) (tid : TThreadID)
    (h : ∀ t, m t ≠ some 0) : ∀ t, removeIndent m tid t ≠ some 0 := by
  intro t
  unfold removeIndent
  by_cases ht : t = tid
  · cases hm : m tid with
    | none => simp [ht]
    | some k =>
      by_cases hk : k - 1 = 0 <;> simp [ht, hm, hk]
  · simp [ht]
    exact h t

theorem removeIndent_addIndent (m : ThreadIndentMap) (tid : TThreadID)
    (h : ∀ t, m t ≠ some 0) : removeIndent (addIndent m tid) tid = m := by
  funext t
  unfold removeIndent addIndent
  by_cases ht : t = tid
  · subst ht
    cases hm : m t with
    | none => simp [hm]
    | some k =>
      have hk : k ≠ 0 := by
        intro h0
        exact h t (h0 ▸ hm)
      simp [hm, hk]
  · simp [ht]

theorem addIndentN_preserves_inv (n : Nat) (m : ThreadIndentMap) (tid : TThreadID)
    (h : ∀ t, m t ≠ some 0) : ∀ t, addIndentN n m tid t ≠ some 0 := by
  induction n with
  | zero => exact h
  | succ n ih => exact addIndent_preserves_inv _ tid ih

theorem removeIndentN_addIndentN (n : Nat) (m : ThreadIndentMap) (tid : TThreadID)
    (h : ∀ t, m t ≠ some 0) : removeIndentN n (addIndentN n m tid) tid = m := by
  induction n with
  | zero => rfl
  | succ n ih =>
    show removeIndentN n (removeIndent (addIndent (addIndentN n m tid) tid) tid) tid = m
    rw [removeIndent_addIndent _ tid (addIndentN_preserves_inv n m tid h)]
    exact ih

/-- C7: the per-thread indent counter is a stack: `addIndent` increments the
calling thread's depth by one; `removeIndent` decrements it when positive; the
thread's entry is erased (never left at zero) exactly when the depth returns
to zero; an absent thread has depth 0; the erased-not-zeroed invariant is
preserved; and `n` balanced `addIndent`/`removeIndent` pairs restore the map
and the depth exactly. -/
theorem indent_stack_behavior (m : ThreadIndentMap) (tid : TThreadID) (n : Nat)
    (hInv : ∀ t, m t ≠ some 0) :
    getIndent (addIndent m tid) tid = getIndent m tid + 1
    ∧ (0 < getIndent m tid →
        getIndent (removeIndent m tid) tid = getIndent m tid - 1)
    ∧ ((removeIndent m tid) tid = none ↔ getIndent (removeIndent m tid) tid = 0)
    ∧ (m tid = none → getIndent m tid = 0)
    ∧ (∀ t, addIndent m tid t ≠ some 0)
    ∧ (∀ t, removeIndent m tid t ≠ some 0)
    ∧ removeIndentN n (addIndentN n m tid) tid = m
    ∧ getIndent (removeIndentN n (addIndentN n m tid) tid) tid = getIndent m tid := by
  refine ⟨?_, ?_, ?_, ?_, addIndent_preserves_inv m tid hInv,
    removeIndent_preserves_inv m tid hInv,
    removeIndentN_addIndentN n m tid hInv, ?_⟩
  · cases hm : m tid <;> simp [getIndent, addIndent, hm]
  · intro hpos
    cases hm : m tid with
    | none => simp [getIndent, hm] at hpos
    | some k =>
      by_cases hk : k - 1 = 0
      · have hk0 : k ≠ 0 := fun h0 => hInv tid (h0 ▸ hm)
        have hk1 : k = 1 := by omega
        simp [getIndent, removeIndent, hm, hk, hk1]
      · simp [getIndent, removeIndent, hm, hk]
  · cases hm : m tid with
    | none => simp [getIndent, removeIndent, hm]
    | some k =>
      by_cases hk : k - 1 = 0 <;> simp [getIndent, removeIndent, hm, hk]
  · intro hm
    simp [getIndent, hm]
  · rw [removeIndentN_addIndentN n m tid hInv]

-- C8 ---------------------------------------------------------------------------

/-- `getMapKeys`: the keys of a structured map, as captured by the map form of
`CLogScopedMetadata`'s constructor (`m_keys`). -/
def getMapKeys (m : JObj) : List String :=
  m.map Prod.fst

/-- The constructor of `CLogScopedMetadata` (map form): add every pair of the
given map. -/
def scopedMetadataEnter (pairs : JObj) (doMetadata : Bool)
    (m : ThreadMetadataMap) (tid : TThreadID) : ThreadMetadataMap :=
  pairs.foldl (fun acc p => addMetadata doMetadata acc tid p.1 p.2) m

/-- The destructor of `CLogScopedMetadata`: remove every key captured at
construction. -/
def scopedMetadataExit (keys : List String) (doMetadata : Bool)
    (m : ThreadMetadataMap) (tid : TThreadID) : ThreadMetadataMap :=
  keys.foldl (fun acc k => removeMetadata doMetadata acc tid k) m

theorem alFind?_eq_none_iff (l : List (String × α)) (k : String) :
    alFind? l k = none ↔ ∀ p ∈ l, p.1 ≠ k := by
  induction l with
  | nil => simp [alFind?]
  | cons p rest ih =>
    obtain ⟨k2, v2⟩ := p
    by_cases h : k2 = k <;> simp [alFind?, h, ih]

theorem alErase_eq_filter (l : List (String × α)) (k : String) :
    alErase l k = l.filter fun p => !decide (p.1 = k) := by
  induction l with
  | nil => rfl
  | cons p rest ih =>
    obtain ⟨k2, v2⟩ := p
    by_cases h : k2 = k <;> simp [alErase, h, ih, List.filter_cons]

theorem alFind?_filter_mem (o : List (String × α)) (S : List String) (k : String)
    (hk : k ∈ S) : alFind? (o.filter fun p => !decide (p.1 ∈ S)) k = none := by
  induction o with
  | nil => simp [alFind?]
  | cons p rest ih =>
    obtain ⟨k2, v2⟩ := p
    by_cases hmem : k2 ∈ S
    · simp [List.filter_cons, hmem, ih]
    · have hne : k2 ≠ k := fun he => hmem (he ▸ hk)
      simp [List.filter_cons, hmem, alFind?, hne, ih]

theorem alFind?_filter_not_mem (o : List (String × α)) (S : List String)
    (k : String) (hk : k ∉ S) :
    alFind? (o.filter fun p => !decide (p.1 ∈ S)) k = alFind? o k := by
  induction o with
  | nil => simp [alFind?]
  | cons p rest ih =>
    obtain ⟨k2, v2⟩ := p
    by_cases hmem : k2 ∈ S
    · have hne : k2 ≠ k := fun he => hk (he ▸ hmem)
      simp [List.filter_cons, hmem, alFind?, hne, ih]
    · by_cases hpk : k2 = k
      · subst hpk
        simp [List.filter_cons, hmem, alFind?]
      · simp [List.filter_cons, hmem, alFind?, hpk, ih]

theorem removeMetadata_other (m : ThreadMetadataMap) (tid t : TThreadID)
    (k : String) (ht : t ≠ tid) : removeMetadata true m tid k t = m t := by
  unfold removeMetadata
  cases hm : m tid with
  | none => simp
  | some o =>
    by_cases hf : (alFind? o k).isSome <;> simp [hf, ht]

theorem scopedMetadataExit_other (S : List String) :
    ∀ (m : ThreadMetadataMap) (tid t : TThreadID), t ≠ tid →
      scopedMetadataExit S true m tid t = m t := by
  induction S with
  | nil => intro m tid t _; rfl
  | cons k ks ih =>
    intro m tid t ht
    show scopedMetadataExit ks true (removeMetadata true m tid k) tid t = m t
    rw [ih _ tid t ht, removeMetadata_other m tid t k ht]

theorem scopedMetadataExit_tid (S : List String) :
    ∀ (m : ThreadMetadataMap) (tid : TThreadID), m tid ≠ some [] →
      (scopedMetadataExit S true m tid) tid
        = match m tid with
          | none => none
          | some o =>
            let o2 := o.filter fun p => !decide (p.1 ∈ S)
            if o2.isEmpty then none else some o2 := by
  induction S with
  | nil =>
    intro m tid h
    cases hm : m tid with
    | none => simpa [scopedMetadataExit] using hm
    | some o =>
      have ho : o ≠ [] := by
        intro h0
        exact h (h0 ▸ hm)
      simp only [scopedMetadataExit, List.foldl_nil]
      simp [hm, List.filter_true, List.isEmpty_iff, ho]
  | cons k ks ih =>
    intro m tid h
    show (scopedMetadataExit ks true (removeMetadata true m tid k) tid) tid = _
    cases hm : m tid with
    | none =>
      have hm1 : removeMetadata true m tid k = m := by
        unfold removeMetadata
        rw [hm]
        simp
      rw [hm1, ih m tid h, hm]
    | some o =>
      by_cases hf : (alFind? o k).isSome
      · have ho2 : alErase o k = o.filter fun p => !decide (p.1 = k) :=
          alErase_eq_filter o k
        by_cases he : (alErase o k).isEmpty
        · -- the thread entry is erased by this removal
          have hm1 : removeMetadata true m tid k tid = none := by
            unfold removeMetadata
            rw [hm]
            simp [hf, he]
          have hm1f : ∀ t, removeMetadata true m tid k t
              = if t = tid then none else m t := by
            intro t
            by_cases ht : t = tid
            · rw [ht, hm1]
              simp
            · rw [removeMetadata_other m tid t k ht]
              simp [ht]
          -- every element of o has key k
          have hall : ∀ p ∈ o, p.1 = k := by
            intro p hp
            have := List.filter_eq_nil_iff.mp
              ((List.isEmpty_iff).mp (ho2 ▸ he)) p hp
            simpa using this
          have hres : (o.filter fun p => !decide (p.1 ∈ k :: ks)) = [] := by
            apply List.filter_eq_nil_iff.mpr
            intro p hp
            simp [hall p hp]
          rw [ih _ tid (by rw [hm1]; intro hc; cases hc)]
          rw [hm1]
          show (none : Option JObj)
              = if (o.filter fun p => !decide (p.1 ∈ k :: ks)).isEmpty then none
                else some (o.filter fun p => !decide (p.1 ∈ k :: ks))
          rw [hres]
          rfl
        · -- the thread entry survives with the erased object
          have ho2ne : alErase o k ≠ [] := by
            intro h0
            rw [h0] at he
            exact he rfl
          have hm1 : removeMetadata true m tid k tid = some (alErase o k) := by
            unfold removeMetadata
            rw [hm]
            simp [hf, he]
          rw [ih _ tid (by rw [hm1]; intro hc; injection hc with hc2; exact ho2ne hc2)]
          rw [hm1]
          have hcomp : ((alErase o k).filter fun p => !decide (p.1 ∈ ks))
              = o.filter fun p => !decide (p.1 ∈ k :: ks) := by
            rw [ho2, List.filter_filter]
            apply List.filter_congr
            intro p _
            by_cases h1 : p.1 = k <;> by_cases h2 : p.1 ∈ ks <;> simp [h1, h2]
          show (if ((alErase o k).filter fun p => !decide (p.1 ∈ ks)).isEmpty then none
                else some ((alErase o k).filter fun p => !decide (p.1 ∈ ks)))
              = if (o.filter fun p => !decide (p.1 ∈ k :: ks)).isEmpty then none
                else some (o.filter fun p => !decide (p.1 ∈ k :: ks))
          rw [hcomp]
      · have hm1 : removeMetadata true m tid k = m := by
          unfold removeMetadata
          rw [hm]
          simp [hf]
        rw [hm1, ih m tid h, hm]
        have hcong : (o.filter fun p => !decide (p.1 ∈ ks))
            = o.filter fun p => !decide (p.1 ∈ k :: ks) := by
          apply List.filter_congr
          intro p hp
          have hne : p.1 ≠ k := by
            have := (alFind?_eq_none_iff o k).mp (by
              cases halt : alFind? o k with
              | none => rfl
              | some v => rw [halt] at hf; simp at hf) p hp
            exact this
          simp [List.mem_cons, hne]
        show (if (o.filter fun p => !decide (p.1 ∈ ks)).isEmpty then none
              else some (o.filter fun p => !decide (p.1 ∈ ks)))
            = if (o.filter fun p => !decide (p.1 ∈ k :: ks)).isEmpty then none
              else some (o.filter fun p => !decide (p.1 ∈ k :: ks))
        rw [hcong]

/-- C8: on exit, a metadata scope guard removes from the calling thread's
metadata exactly the keys it added at entry (`m_keys`: the single key, or the
keys of the supplied map): every captured key is absent afterwards, every
other key of that thread's metadata is unchanged, other threads' metadata is
untouched, and the thread's entry in the outer per-thread map is erased
exactly when its last key is removed. -/
theorem scopedMetadata_exit_removes_exactly (S : List String)
    (m : ThreadMetadataMap) (tid : TThreadID) (h : m tid ≠ some []) :
    (∀ t, t ≠ tid → scopedMetadataExit S true m tid t = m t)
    ∧ (∀ k, k ∈ S →
        ((scopedMetadataExit S true m tid) tid).bind (fun o => alFind? o k) = none)
    ∧ (∀ k, k ∉ S →
        ((scopedMetadataExit S true m tid) tid).bind (fun o => alFind? o k)
          = (m tid).bind (fun o => alFind? o k))
    ∧ ((scopedMetadataExit S true m tid) tid = none
        ↔ ∀ p ∈ (m tid).getD [], p.1 ∈ S) := by
  have hchar := scopedMetadataExit_tid S m tid h
  refine ⟨fun t ht => scopedMetadataExit_other S m tid t ht, ?_, ?_, ?_⟩
  · intro k hk
    rw [hchar]
    cases hm : m tid with
    | none => rfl
    | some o =>
      by_cases hemp : (o.filter fun p => !decide (p.1 ∈ S)).isEmpty
      · simp [hemp]
      · simp [hemp, alFind?_filter_mem o S k hk]
  · intro k hk
    rw [hchar]
    cases hm : m tid with
    | none => rfl
    | some o =>
      by_cases hemp : (o.filter fun p => !decide (p.1 ∈ S)).isEmpty
      · have hall : ∀ p ∈ o, p.1 ∈ S := by
          intro p hp
          have := List.filter_eq_nil_iff.mp ((List.isEmpty_iff).mp hemp) p hp
          simpa using this
        have hnone : alFind? o k = none :=
          (alFind?_eq_none_iff o k).mpr fun p hp he => hk (he ▸ hall p hp)
        simp [hemp, hnone]
      · simp [hemp, alFind?_filter_not_mem o S k hk]
  · rw [hchar]
    cases hm : m tid with
    | none => simp
    | some o =>
      by_cases hemp : (o.filter fun p => !decide (p.1 ∈ S)).isEmpty
      · have hall : ∀ p ∈ o, p.1 ∈ S := by
          intro p hp
          have := List.filter_eq_nil_iff.mp ((List.isEmpty_iff).mp hemp) p hp
          simpa using this
        simp [hemp]
        exact fun a b hab => hall (a, b) hab
      · have hne : (o.filter fun p => !decide (p.1 ∈ S)) ≠ [] := by
          intro h0
          rw [h0] at hemp
          exact hemp rfl
        obtain ⟨x, hx⟩ := List.exists_mem_of_ne_nil _ hne
        have hx2 := List.mem_filter.mp hx
        simp [hemp]
        refine ⟨x.1, ⟨x.2, hx2.1⟩, ?_⟩
        simpa using hx2.2

-- C9 ---------------------------------------------------------------------------

/-- Fuel-driven floor base-2 logarithm (the fuel argument makes it reduce in
the kernel; `log2Aux n n` is the floor log2 of `n`). -/
def log2Aux : Nat → Nat → Nat
  | 0, _ => 0
  | fuel + 1, n => if 2 ≤ n then log2Aux fuel (n / 2) + 1 else 0

/-- Floor base-2 logarithm. -/
def log2floor (n : Nat) : Nat :=
  log2Aux n n

theorem log2Aux_le (fuel : Nat) : ∀ n, n ≤ fuel → n ≠ 0 → 2 ^ log2Aux fuel n ≤ n := by
  induction fuel with
  | zero =>
    intro n hn h0
    omega
  | succ fuel ih =>
    intro n hn h0
    unfold log2Aux
    by_cases h2 : 2 ≤ n
    · rw [if_pos h2]
      have hhalf : n / 2 ≤ fuel := by omega
      have hne : n / 2 ≠ 0 := by omega
      calc 2 ^ (log2Aux fuel (n / 2) + 1) = 2 ^ log2Aux fuel (n / 2) * 2 := by
            rw [Nat.pow_succ]
        _ ≤ n / 2 * 2 := Nat.mul_le_mul_right 2 (ih (n / 2) hhalf hne)
        _ ≤ n := Nat.div_mul_le_self n 2
    · rw [if_neg h2]
      omega

theorem log2floor_self_le (n : Nat) (h0 : n ≠ 0) : 2 ^ log2floor n ≤ n :=
  log2Aux_le n n (Nat.le_refl n) h0

/-- Value of the IEEE-754 single-precision (`float`) conversion of a natural
number, as an exact natural: round to the nearest multiple of
`2 ^ (log2 n - 23)`, ties to even (the conversion is exact for `n ≤ 2 ^ 24`).
This models the implicit `long long → float` conversion the source applies to
the nanosecond count (`float val = ...count()`) in `~CLogScopedTimer`. -/
def floatOfNat (n : Nat) : Nat :=
  let u := 2 ^ (log2floor n - 23)
  let q := n / u
  let r := n % u
  if 2 * r < u then q * u
  else if u < 2 * r then (q + 1) * u
  else if q % 2 = 0 then q * u else (q + 1) * u

/-- The unit ladder of `~CLogScopedTimer`, applied (as in the source) to the
`float` value of the nanosecond count. -/
def timerSuffix (ns : Nat) : String :=
  let val := floatOfNat ns
  if 100000000 ≤ val then "s"
  else if 1000000 ≤ val then "ms"
  else if 1000 ≤ val then "us"
  else "ns"

/-- The value streamed before the unit suffix: the `duration_cast` of the
elapsed time to the chosen unit (an integer; its rendering is modelled as
decimal). -/
def timerDisplayValue (ns : Nat) : Nat :=
  let val := floatOfNat ns
  if 100000000 ≤ val then ns / 1000000000
  else if 1000000 ≤ val then ns / 1000000
  else if 1000 ≤ val then ns / 1000
  else ns

/-- The threshold ladder exactly as C9's specification words it, applied to
the exact nanosecond count (for comparison with `timerSuffix`). -/
def specTimerUnit (ns : Nat) : String :=
  if 100000000 ≤ ns then "s"
  else if 1000000 ≤ ns then "ms"
  else if 1000 ≤ ns then "us"
  else "ns"

/-- The map the timer destructor emits: a copy of the shared map (empty when
absent) with the elapsed milliseconds stored under `duration_ms`. -/
def timerExitMap (mapDataPtr : Option JObj) (ns : Nat) : JObj :=
  alSet (mapDataPtr.getD []) "duration_ms" (.num (Int.ofNat (ns / 1000000)))

/-- `CLogScopedTimer::~CLogScopedTimer`: when the filter passes, append the
formatted duration to the message, add `duration_ms`, and emit through
`ALOG_LEVEL_IMPL` (which re-checks the filter).  `ns` is the elapsed
nanosecond count. -/
def timerExit (st : RegistryState) (ch : String) (lvl : ELogLevels)
    (msg : String) (mapDataPtr : Option JObj) (ns : Nat) (tid : TThreadID)
    (ts : String) : Except (String × RegistryState) RegistryState :=
  match filter st ch lvl with
  | .error e => .error (e, st)
  | .ok false => .ok st
  | .ok true =>
    alogLevelImpl st ch lvl
      (msg ++ toString (timerDisplayValue ns) ++ timerSuffix ns)
      (timerExitMap mapDataPtr ns) tid ts

/-- C9 counterexample: at 99 999 996 ns — just below 10^8 — the `float`
conversion of the count rounds up to exactly 10^8, so the code selects the
seconds unit while the claim's exact-nanosecond ladder selects milliseconds. -/
theorem timer_unit_float_divergence :
    timerSuffix 99999996 = "s" ∧ specTimerUnit 99999996 = "ms"
    ∧ floatOfNat 99999996 = 100000000 := by
  refine ⟨?_, ?_, ?_⟩ <;> decide

theorem floatOfNat_exact (n : Nat) (h : n ≤ 16777216) : floatOfNat n = n := by
  unfold floatOfNat
  by_cases h24 : log2floor n ≤ 23
  · have hu : log2floor n - 23 = 0 := by omega
    simp [hu, Nat.mod_one, Nat.div_one]
  · have h1 : n ≠ 0 := by
      intro h0
      rw [h0] at h24
      exact h24 (by decide)
    have h2 : 2 ^ log2floor n ≤ n := log2floor_self_le n h1
    have h3 : 24 ≤ log2floor n := by omega
    have h4 : 16777216 ≤ n := by
      calc (16777216 : Nat) = 2 ^ 24 := by norm_num
        _ ≤ 2 ^ log2floor n := Nat.pow_le_pow_right (by norm_num) h3
        _ ≤ n := h2
    have h5 : n = 16777216 := by omega
    subst h5
    decide

/-- C9 (amended): on exit of an enabled scoped timer, the emitted entry's
structured map always holds `duration_ms` with the elapsed time in
milliseconds regardless of the display unit (also after the metadata
injection of the write path), and the display unit appended to the message is
chosen by the stated threshold ladder applied to the single-precision float
value of the elapsed nanosecond count — which coincides with the exact ladder
for counts up to 2^24 ns but can differ within 4 ns below the 10^8 threshold. -/
theorem timer_exit_duration_and_unit (st : RegistryState) (ch : String)
    (lvl : ELogLevels) (msg : String) (mapDataPtr : Option JObj) (ns : Nat)
    (tid : TThreadID) (ts : String)
    (hf : filter st ch lvl = .ok true) :
    timerExit st ch lvl msg mapDataPtr ns tid ts
        = .ok (log st ch lvl
            (msg ++ toString (timerDisplayValue ns) ++ timerSuffix ns)
            (timerExitMap mapDataPtr ns) tid ts)
    ∧ alFind? (timerExitMap mapDataPtr ns) "duration_ms"
        = some (.num (Int.ofNat (ns / 1000000)))
    ∧ alFind? (injectMetadata st tid (timerExitMap mapDataPtr ns)) "duration_ms"
        = some (.num (Int.ofNat (ns / 1000000)))
    ∧ (ns ≤ 16777216 → timerSuffix ns = specTimerUnit ns) := by
  refine ⟨?_, ?_, ?_, ?_⟩
  · simp [timerExit, alogLevelImpl, hf]
  · exact alFind?_alSet_self _ _ _
  · unfold injectMetadata
    by_cases hd : st.m_doMetadata
    · rw [if_pos hd]
      cases hmd : st.m_metadata tid with
      | none => exact alFind?_alSet_self _ _ _
      | some md =>
        show alFind? (alSet (timerExitMap mapDataPtr ns) "metadata" (JVal.obj md))
            "duration_ms" = some (JVal.num (Int.ofNat (ns / 1000000)))
        rw [alFind?_alSet_ne (timerExitMap mapDataPtr ns) "metadata" "duration_ms"
          (JVal.obj md) (by decide)]
        exact alFind?_alSet_self _ _ _
    · rw [if_neg hd]
      exact alFind?_alSet_self _ _ _
  · intro hn
    simp [timerSuffix, specTimerUnit, floatOfNat_exact ns hn]

-- Witnesses --------------------------------------------------------------------

/-- Witness for C3 at the concrete call `setupFilters {} "CH:debug" "bogus"`:
the raise leaves the default level unchanged. -/
theorem setupFilters_error_iff_witness :
    initialRegistry.m_defaultLevel = ELogLevels.off
    ∧ ({ initialRegistry with
          m_filters := [("CH", ELogLevels.debug)] }).m_defaultLevel
        = initialRegistry.m_defaultLevel := by
  have h := (setupFilters_error_iff initialRegistry "CH:debug" "bogus").2
    "Invalid Log Level Spec [bogus]"
    { initialRegistry with m_filters := [("CH", ELogLevels.debug)] } rfl
  exact ⟨rfl, h.1⟩

/-- A concrete entry for the C6 witness, with a caller key colliding with the
reserved `channel` key and a separate custom key. -/
def jsonEntryExample : CLogEntry :=
  { channel := "CH"
    level := .info
    message := "hello"
    timestamp := "T"
    serviceName := "svc"
    nIndent := 2
    threadId := 7
    mapData := [("channel", .str "SPOOF"), ("custom", .num 7)] }

/-- Witness for C6: the reserved value overwrites the colliding caller value,
the custom key survives, and the non-empty message is present. -/
theorem jsonFormat_structure_witness :
    alFind? (jsonEntryObj true jsonEntryExample) "channel" = some (.str "CH")
    ∧ alFind? (jsonEntryObj true jsonEntryExample) "custom" = some (.num 7)
    ∧ alFind? (jsonEntryObj true jsonEntryExample) "message" = some (.str "hello") := by
  have h := jsonFormat_structure true jsonEntryExample
  refine ⟨h.2.1, ?_, ?_⟩
  · rw [h.2.2.2.2.2.2.2.2 "custom" (by decide)]
    rfl
  · rw [h.2.2.2.2.2.1]
    rfl

/-- A concrete indent map for the C7 witness: thread 0 at depth 2. -/
def indentExample : ThreadIndentMap :=
  fun t => if t = 0 then some 2 else none

/-- Witness for C7 at a thread of depth 2 with two balanced pairs. -/
theorem indent_stack_behavior_witness :
    getIndent (addIndent indentExample 0) 0 = 3
    ∧ getIndent (removeIndent indentExample 0) 0 = 1
    ∧ getIndent (removeIndentN 2 (addIndentN 2 indentExample 0) 0) 0 = 2 := by
  have hInv : ∀ t, indentExample t ≠ some 0 := by
    intro t
    unfold indentExample
    by_cases ht : t = 0 <;> simp [ht]
  have h := indent_stack_behavior indentExample 0 2 hInv
  refine ⟨?_, ?_, ?_⟩
  · rw [h.1]
    rfl
  · rw [h.2.1 (by decide)]
    rfl
  · rw [h.2.2.2.2.2.2.2]
    rfl

/-- A concrete metadata map for the C8 witness: thread 3 holds keys `a`, `b`. -/
def metadataExample : ThreadMetadataMap :=
  fun t => if t = 3 then some [("a", .num 1), ("b", .num 2)] else none

/-- Witness for C8: a guard that captured key `a` removes it, preserves `b`,
and leaves other threads untouched. -/
theorem scopedMetadata_exit_removes_exactly_witness :
    ((scopedMetadataExit ["a"] true metadataExample 3) 3).bind
        (fun o => alFind? o "a") = none
    ∧ ((scopedMetadataExit ["a"] true metadataExample 3) 3).bind
        (fun o => alFind? o "b") = some (.num 2)
    ∧ scopedMetadataExit ["a"] true metadataExample 3 5 = none := by
  have h3 : metadataExample 3 ≠ some [] := by
    unfold metadataExample
    simp
  have h := scopedMetadata_exit_removes_exactly ["a"] metadataExample 3 h3
  refine ⟨h.2.1 "a" (by decide), ?_, ?_⟩
  · rw [h.2.2.1 "b" (by decide)]
    rfl
  · rw [h.1 5 (by decide)]
    rfl

/-- A registry whose default level enables everything up to `debug`. -/
def timerRegistry : RegistryState :=
  { initialRegistry with m_defaultLevel := .debug }

/-- Witness for C9 at 2 500 000 ns on an enabled timer: `duration_ms` is 2 and
the float ladder agrees with the exact ladder (both select `ms`). -/
theorem timer_exit_duration_and_unit_witness :
    alFind? (timerExitMap (some [("x", JVal.num 1)]) 2500000) "duration_ms"
        = some (.num (Int.ofNat 2))
    ∧ timerSuffix 2500000 = specTimerUnit 2500000
    ∧ timerSuffix 2500000 = "ms" := by
  have h := timer_exit_duration_and_unit timerRegistry "TIMER" ELogLevels.info "t"
    (some [("x", JVal.num 1)]) 2500000 0 "T" rfl
  exact ⟨h.2.1, h.2.2.2 (by decide), by decide⟩

/-- A registry with one sink holding prior output. -/
def sinkRegistry : RegistryState :=
  { initialRegistry with m_sinks := ["PREV"] }

/-- A concrete entry with empty message and empty map. -/
def emptyEntry : CLogEntry :=
  { channel := "CH"
    level := .debug
    message := ""
    timestamp := "T"
    serviceName := ""
    nIndent := 0
    threadId := 0
    mapData := [] }

/-- Witness for C10: the plain-text formatter yields no lines for the empty
entry and `log` leaves the registry (sinks included) unchanged. -/
theorem empty_entry_writes_nothing_witness :
    stdFormatEntry false emptyEntry = []
    ∧ log sinkRegistry "CH" ELogLevels.debug "" [] 0 "T" = sinkRegistry :=
  empty_entry_writes_nothing false emptyEntry sinkRegistry "CH" ELogLevels.debug
    0 "T" rfl rfl rfl rfl

end Alog
